import Mathlib

/-!
Verification of the feature-construction and alignment pipeline of the
wind-power prediction notebook (3_Model/model_definition_evaluation.ipynb).

The embedding models pandas series as lists of rationals, missing values
(NaN) as `none`, and column names as lists of characters.  Each definition
mirrors one operation of the notebook's data-preparation cell: `shift`,
`rolling(w).mean()` / `rolling(w).std()`, `dropna`, the target shift and
one-row truncation, the non-shuffled `train_test_split`, the `MinMaxScaler`,
the LSTM windowing loop, the per-farm column renaming, the merge-step key
validation of `pd.merge`, and the `%Y%m%d%H` parsing of
`pd.to_datetime(..., format=...)`.  The rolling standard deviation is
represented by its radicand (the ddof = 1 sample variance): the square root
is irrational in general, is injective on nonnegative arguments, and plays
no role in any of the definedness or dependence properties proved below.
-/

namespace WindPower

/-- pandas `Series.shift(k)` for `k ≥ 0` on a series of length `n`:
entry `t` holds the raw value at `t - k` and is missing for `t < k`.
Source: `df['wp1'].shift(lag)` for `lag in [1, 2, 3]`. -/
def pandasShift (k : Nat) (xs : List ℚ) : List (Option ℚ) :=
  (List.range xs.length).map fun t => if t < k then none else xs.get? (t - k)

/-- pandas `Series.shift(-1)`: every value moves one row up, the last entry
becomes missing.  Source: `df['wp1'].shift(-1)`. -/
def pandasShiftNeg1 (xs : List ℚ) : List (Option ℚ) :=
  (xs.drop 1).map some ++ (if xs.isEmpty then [] else [none])

/-- pandas `Series.dropna`: keeps the present values, in order. -/
def dropna (xs : List (Option ℚ)) : List ℚ := xs.filterMap id

/-- trailing window of width `w` ending at row `t` (rows `t+1-w, …, t`). -/
def windowAt (w t : Nat) (xs : List ℚ) : List ℚ := (xs.drop (t + 1 - w)).take w

/-- pandas `rolling(w).mean()` with the default `min_periods = w`: missing
while fewer than `w` observations are available (rows `t` with `t + 1 < w`),
afterwards the mean of the trailing window.
Source: `df['wp1'].rolling(window).mean()` for `window in [3, 6, 12]`. -/
def rollingMean (w : Nat) (xs : List ℚ) : List (Option ℚ) :=
  (List.range xs.length).map fun t =>
    if t + 1 < w then none else some ((windowAt w t xs).sum / w)

/-- radicand of pandas `rolling(w).std()` (default `ddof = 1`): the sample
variance of the trailing window, missing while fewer than `w` observations
are available.  Source: `df['wp1'].rolling(window).std()`. -/
def rollingVarS (w : Nat) (xs : List ℚ) : List (Option ℚ) :=
  (List.range xs.length).map fun t =>
    if t + 1 < w then none else
      some (((windowAt w t xs).map
        (fun x => (x - (windowAt w t xs).sum / w) ^ 2)).sum / (w - 1))

/-- the nine derived feature cells at row `t`: `wp1_lag1`, `wp1_lag2`,
`wp1_lag3`, then rolling mean and rolling-std radicand for windows 3, 6, 12.
Source lines 96-101 of the feature-engineering cell. -/
def derivedAt (xs : List ℚ) (t : Nat) : List (Option ℚ) :=
  [(pandasShift 1 xs).getD t none,
   (pandasShift 2 xs).getD t none,
   (pandasShift 3 xs).getD t none,
   (rollingMean 3 xs).getD t none,
   (rollingVarS 3 xs).getD t none,
   (rollingMean 6 xs).getD t none,
   (rollingVarS 6 xs).getD t none,
   (rollingMean 12 xs).getD t none,
   (rollingVarS 12 xs).getD t none]

/-- row indices surviving `df.dropna(subset=feature_cols)` on a dense input
series: the raw, merged and calendar columns are total, so a row is kept
exactly when all nine derived cells are present. -/
def completeRows (xs : List ℚ) : List Nat :=
  (List.range xs.length).filter fun t => (derivedAt xs t).all Option.isSome

/-- row indices that would survive if only the three lag columns were
required to be present. -/
def lagCompleteRows (xs : List ℚ) : List Nat :=
  (List.range xs.length).filter fun t =>
    ([(pandasShift 1 xs).getD t none,
      (pandasShift 2 xs).getD t none,
      (pandasShift 3 xs).getD t none]).all Option.isSome

/-- target construction `y = df['wp1'].shift(-1).dropna()`. -/
def targetSeries (xs : List ℚ) : List ℚ := dropna (pandasShiftNeg1 xs)

/-- feature-matrix truncation `X = X.iloc[:-1, :]`. -/
def truncateLast (X : List α) : List α := X.dropLast

/-- sklearn test-partition size for `test_size = 0.2`: the ceiling of `n / 5`
(`_validate_shuffle_split` computes `n_test = ceil(test_size * n)`). -/
def nTest (n : Nat) : Nat := (n + 4) / 5

/-- sklearn train-partition size: the remainder `n - nTest n`. -/
def nTrain (n : Nat) : Nat := n - nTest n

/-- training part of `train_test_split(..., test_size=0.2, shuffle=False)`:
the first `nTrain` rows, order preserved. -/
def ttsTrain (l : List α) : List α := l.take (nTrain l.length)

/-- test part of `train_test_split(..., test_size=0.2, shuffle=False)`:
the remaining rows, order preserved. -/
def ttsTest (l : List α) : List α := l.drop (nTrain l.length)

/-- sklearn `_handle_zeros_in_scale`: a zero data range is replaced by 1. -/
def handleZeros (r : ℚ) : ℚ := if r = 0 then 1 else r

/-- fitted column minimum of the `MinMaxScaler` (`np.min` over the column). -/
def dataMin (xs : List ℚ) : ℚ := xs.foldl min (xs.headD 0)

/-- fitted column maximum of the `MinMaxScaler` (`np.max` over the column). -/
def dataMax (xs : List ℚ) : ℚ := xs.foldl max (xs.headD 0)

/-- `MinMaxScaler.scale_` for feature range `(0, 1)`:
`1 / handleZeros (data_max - data_min)`. -/
def mmScale (xs : List ℚ) : ℚ := 1 / handleZeros (dataMax xs - dataMin xs)

/-- `MinMaxScaler.min_` for feature range `(0, 1)`: `0 - data_min * scale_`. -/
def mmMinAdj (xs : List ℚ) : ℚ := 0 - dataMin xs * mmScale xs

/-- `MinMaxScaler.transform` on a single value: `x * scale_ + min_`. -/
def mmTransform (xs : List ℚ) (x : ℚ) : ℚ := x * mmScale xs + mmMinAdj xs

/-- `MinMaxScaler.inverse_transform` on a single value:
`(x - min_) / scale_`. -/
def mmInverse (xs : List ℚ) (x : ℚ) : ℚ := (x - mmMinAdj xs) / mmScale xs

/-- the LSTM input windows: for each `i` in `range(3, len(Xs))` the slice
`Xs[i-3:i]` of three consecutive scaled feature rows.
Source: the `X_lstm` loop with `timesteps = 3`. -/
def lstmX (Xs : List (List ℚ)) : List (List (List ℚ)) :=
  (List.range' 3 (Xs.length - 3)).map fun i => (Xs.drop (i - 3)).take 3

/-- the LSTM targets: for each `i` in `range(3, len(Xs))` the scaled target
`ys[i]`.  Source: the `y_lstm` loop with `timesteps = 3`. -/
def lstmY (Xs : List (List ℚ)) (ys : List ℚ) : List ℚ :=
  (List.range' 3 (Xs.length - 3)).map fun i => ys.getD i 0

/-- big-endian decimal digits of `n`, with explicit fuel (the fuel `n + 1`
used below always suffices, since the argument at least halves each step). -/
def digitsAux : Nat → Nat → List Nat
  | 0, _ => []
  | fuel + 1, n => if n < 10 then [n] else digitsAux fuel (n / 10) ++ [n % 10]

/-- big-endian decimal digits of `n`, as produced by Python `str(n)`. -/
def natDigitsBE (n : Nat) : List Nat := digitsAux (n + 1) n

/-- decimal character string of `n`, as produced by `astype(str)` /
f-string interpolation. -/
def natChars (n : Nat) : List Char := (natDigitsBE n).map Nat.digitChar

/-- numeric value of a big-endian digit list. -/
def valBE (ds : List Nat) : Nat := ds.foldl (fun a d => 10 * a + d) 0

/-- the merge key column name `date`. -/
def dateKey : List Char := ['d', 'a', 't', 'e']

/-- the merge key column name `hors`. -/
def horsKey : List Char := ['h', 'o', 'r', 's']

/-- renamed per-farm column: f-string `f"{col}_wf{i}"` of the source. -/
def wfName (i : Nat) (c : List Char) : List Char :=
  c ++ ['_', 'w', 'f'] ++ natChars i

/-- the non-key columns of one per-farm file (`date` and `hors` excluded),
the ones the source renames. -/
def nonKeyCols (cols : List (List Char)) : List (List Char) :=
  cols.filter fun c => !(c == dateKey || c == horsKey)

/-- renamed non-key columns of the file at 1-based farm index `i`. -/
def renamedCols (i : Nat) (cols : List (List Char)) : List (List Char) :=
  (nonKeyCols cols).map (wfName i)

/-- all per-farm-derived columns of the merged auxiliary frame, farms
numbered from `i` onwards in sorted-filename order. -/
def allFarmColsAux : Nat → List (List (List Char)) → List (List Char)
  | _, [] => []
  | i, f :: fs => renamedCols i f ++ allFarmColsAux (i + 1) fs

/-- all per-farm-derived columns of the merged auxiliary frame, farms
numbered from 1 as in `enumerate(wf_files, 1)`. -/
def allFarmCols (files : List (List (List Char))) : List (List Char) :=
  allFarmColsAux 1 files

/-- a data frame: named columns and rows of possibly-missing values
(one cell per column, positionally). -/
structure Frame where
  cols : List (List Char)
  rows : List (List (Option ℚ))

/-- `pd.DataFrame()`: no columns, no rows (the `else` branch taken when the
forecast-directory glob matches no files). -/
def emptyFrame : Frame := ⟨[], []⟩

/-- position of a column name in a column list. -/
def colIndex (cs : List (List Char)) (c : List Char) : Nat :=
  cs.findIdx fun x => x == c

/-- key tuple of a row with respect to the `on` columns of a frame. -/
def rowKey (f : Frame) (keys : List (List Char)) (r : List (Option ℚ)) :
    List (Option ℚ) :=
  keys.map fun k => r.getD (colIndex f.cols k) none

/-- positions of the non-key columns of a frame. -/
def nonKeyIdxs (f : Frame) (keys : List (List Char)) : List Nat :=
  (List.range f.cols.length).filter fun j => !(keys.contains (f.cols.getD j []))

/-- left join: every left row is kept in order and extended by the matching
right row's non-key cells, or by missing cells when no right row matches
(per-timestamp tables are assumed to match at most once per key). -/
def leftJoin (l r : Frame) (keys : List (List Char)) : Frame where
  cols := l.cols ++ (r.cols.filter fun c => !(keys.contains c))
  rows := l.rows.map fun row =>
    match r.rows.find? (fun rr => rowKey r keys rr == rowKey l keys row) with
    | some rr => row ++ (nonKeyIdxs r keys).map fun j => rr.getD j none
    | none => row ++ (nonKeyIdxs r keys).map fun _ => none

/-- `pd.merge(l, r, on=on, how='left')`: pandas first validates that every
key column exists in both frames and raises `KeyError` otherwise; on
success it performs the left join. -/
def pdMerge (l r : Frame) (keys : List (List Char)) : Except Unit Frame :=
  if (keys.all fun k => l.cols.contains k) && (keys.all fun k => r.cols.contains k)
  then Except.ok (leftJoin l r keys) else Except.error ()

/-- the merge step of the source: join keys are `['date', 'hors']` when both
frames carry `hors`, else `['date']`, followed by the left merge of the
primary table with the merged auxiliary frame. -/
def mergeStep (train wfMerged : Frame) : Except Unit Frame :=
  pdMerge train wfMerged
    (if train.cols.contains horsKey && wfMerged.cols.contains horsKey
     then [dateKey, horsKey] else [dateKey])

/-- ordered month alternatives of the strptime pattern for `%m`
(`1[0-2]`, `0[1-9]`, then single `[1-9]`): each candidate is the matched
value paired with the unconsumed digits, two-digit matches tried first. -/
def mChoices : List Nat → List (Nat × List Nat)
  | a :: b :: rest =>
    (if (a = 1 ∧ b ≤ 2) ∨ (a = 0 ∧ 1 ≤ b) then [(10 * a + b, rest)] else []) ++
    (if 1 ≤ a ∧ a ≤ 9 then [(a, b :: rest)] else [])
  | [a] => if 1 ≤ a ∧ a ≤ 9 then [(a, [])] else []
  | [] => []

/-- ordered day alternatives of the strptime pattern for `%d`
(`3[01]`, `[12]\d`, `0[1-9]`, then single `[1-9]`). -/
def dChoices : List Nat → List (Nat × List Nat)
  | a :: b :: rest =>
    (if (a = 3 ∧ b ≤ 1) ∨ a = 1 ∨ a = 2 ∨ (a = 0 ∧ 1 ≤ b)
     then [(10 * a + b, rest)] else []) ++
    (if 1 ≤ a ∧ a ≤ 9 then [(a, b :: rest)] else [])
  | [a] => if 1 ≤ a ∧ a ≤ 9 then [(a, [])] else []
  | [] => []

/-- ordered hour alternatives of the strptime pattern for `%H`
(`2[0-3]`, `[0-1]\d`, then single `\d`). -/
def hChoices : List Nat → List (Nat × List Nat)
  | a :: b :: rest =>
    (if (a = 2 ∧ b ≤ 3) ∨ a ≤ 1 then [(10 * a + b, rest)] else []) ++
    [(a, b :: rest)]
  | [a] => [(a, [])]
  | [] => []

/-- the regex engine's first full match of `%m%d%H` on the digits after the
year: alternatives are explored in preference order with backtracking, and
the first complete match is returned together with its unconsumed tail. -/
def matchMDH (rest : List Nat) : Option (Nat × Nat × Nat × List Nat) :=
  (mChoices rest).findSome? fun mc =>
    (dChoices mc.2).findSome? fun dc =>
      (hChoices dc.2).findSome? fun hc =>
        some (mc.1, dc.1, hc.1, hc.2)

/-- Gregorian leap-year rule used by `datetime`. -/
def isLeap (y : Nat) : Bool := (y % 4 = 0 && y % 100 ≠ 0) || y % 400 = 0

/-- days in a month, as validated by `datetime.date`. -/
def daysInMonth (y m : Nat) : Nat :=
  if m = 2 then (if isLeap y then 29 else 28)
  else if m = 4 ∨ m = 6 ∨ m = 9 ∨ m = 11 then 30 else 31

/-- the parsed whole-hour timestamp is at or after pandas'
`Timestamp.min` (1677-09-21 00:12:43.145224193, the smallest
`datetime64[ns]` value): at the hour granularity of the `%Y%m%d%H` format
this means at or after 1677-09-21 hour 1. -/
def tsLowerOk (y m d h : Nat) : Bool :=
  decide (1677 < y) ||
  (decide (y = 1677) &&
    (decide (9 < m) ||
      (decide (m = 9) &&
        (decide (21 < d) || (decide (d = 21) && decide (1 ≤ h))))))

/-- the parsed whole-hour timestamp is at or before pandas'
`Timestamp.max` (2262-04-11 23:47:16.854775807): at hour granularity every
hour of 2262-04-11 is in range and later days are not. -/
def tsUpperOk (y m d : Nat) : Bool :=
  decide (y < 2262) ||
  (decide (y = 2262) && (decide (m < 4) || (decide (m = 4) && decide (d ≤ 11))))

/-- the parsed whole-hour timestamp lies within the `datetime64[ns]` range;
outside it `pd.to_datetime` raises `OutOfBoundsDatetime`. -/
def tsBoundsOk (y m d h : Nat) : Bool := tsLowerOk y m d h && tsUpperOk y m d

/-- parse of one decimal key as done per element by pandas'
`array_strptime` under format `%Y%m%d%H`: the year consumes exactly four
digits (`\d\d\d\d`), then the first regex match of `%m%d%H` is taken; the
parse fails when no match exists, when the match leaves unconsumed digits
(pandas raises "unconverted data remains"), when the matched fields do not
form a valid calendar date-hour, or when the resulting timestamp falls
outside the nanosecond `Timestamp` range (pandas raises
`OutOfBoundsDatetime`). -/
def strptimeYmdH (ds : List Nat) : Option (Nat × Nat × Nat × Nat) :=
  match ds with
  | y1 :: y2 :: y3 :: y4 :: rest =>
    match matchMDH rest with
    | some (m, d, h, leftover) =>
      if leftover = [] ∧ 1 ≤ valBE [y1, y2, y3, y4] ∧
          d ≤ daysInMonth (valBE [y1, y2, y3, y4]) m ∧
          tsBoundsOk (valBE [y1, y2, y3, y4]) m d h = true
      then some (valBE [y1, y2, y3, y4], m, d, h) else none
    | none => none
  | _ => none

/-- the calendar-feature step
`pd.to_datetime(df['date'].astype(str), format='%Y%m%d%H')`: every key is
parsed in order and the first failure raises (`errors='raise'` default). -/
def calendarStep : List Nat → Except Unit (List (Nat × Nat × Nat × Nat))
  | [] => Except.ok []
  | d :: rest =>
    match strptimeYmdH (natDigitsBE d) with
    | none => Except.error ()
    | some r =>
      match calendarStep rest with
      | Except.error e => Except.error e
      | Except.ok rs => Except.ok (r :: rs)

/-- a key encodes a fixed-width `YYYYMMDDHH` date-hour integer: ten decimal
digits whose fixed-position fields form a valid calendar date-hour. -/
def isFixedWidthKey (n : Nat) : Bool :=
  match natDigitsBE n with
  | [y1, y2, y3, y4, m1, m2, d1, d2, h1, h2] =>
    decide (1 ≤ 10 * m1 + m2) && decide (10 * m1 + m2 ≤ 12) &&
    decide (1 ≤ 10 * d1 + d2) && decide (1 ≤ valBE [y1, y2, y3, y4]) &&
    decide (10 * d1 + d2 ≤ daysInMonth (valBE [y1, y2, y3, y4]) (10 * m1 + m2)) &&
    decide (10 * h1 + h2 ≤ 23)
  | _ => false

/-! Helper lemmas about the embedded operations. -/

/-- entry `t` of a nonnegative shift, for `t` inside the series. -/
theorem pandasShift_getD (k : Nat) (xs : List ℚ) {t : Nat} (ht : t < xs.length) :
    (pandasShift k xs).getD t none =
      if t < k then none else xs.get? (t - k) := by
  simp [pandasShift, List.getElem?_range ht]

/-- entry `t` of the rolling mean, for `t` inside the series. -/
theorem rollingMean_getD (w : Nat) (xs : List ℚ) {t : Nat} (ht : t < xs.length) :
    (rollingMean w xs).getD t none =
      if t + 1 < w then none else some ((windowAt w t xs).sum / w) := by
  simp [rollingMean, List.getElem?_range ht]

/-- entry `t` of the rolling-variance radicand, for `t` inside the series. -/
theorem rollingVarS_getD (w : Nat) (xs : List ℚ) {t : Nat} (ht : t < xs.length) :
    (rollingVarS w xs).getD t none =
      if t + 1 < w then none else
        some (((windowAt w t xs).map
          (fun x => (x - (windowAt w t xs).sum / w) ^ 2)).sum / ((w : ℚ) - 1)) := by
  simp [rollingVarS, List.getElem?_range ht]

/-- a slice `xs[a : a+w]` lists the entries at positions `a, …, a+w-1`. -/
theorem drop_take_eq_map_range {α : Type} (d : α) (xs : List α) :
    ∀ (w a : Nat), a + w ≤ xs.length →
      (xs.drop a).take w = (List.range w).map fun j => xs.getD (a + j) d := by
  intro w
  induction w with
  | zero => simp
  | succ v ih =>
    intro a ha
    have haL : a < xs.length := by omega
    rw [List.drop_eq_getElem_cons haL, List.range_succ_eq_map, List.map_cons,
      List.take_succ_cons, List.map_map]
    have h0 : xs.getD (a + 0) d = xs[a] := by
      simp [List.getElem?_eq_getElem haL]
    rw [h0]
    have h1 : (xs.drop (a + 1)).take v =
        (List.range v).map fun j => xs.getD (a + 1 + j) d := ih (a + 1) (by omega)
    rw [h1]
    congr 1
    apply List.map_congr_left
    intro j hj
    simp only [Function.comp, Nat.succ_eq_add_one]
    congr 1
    omega

/-- entries up to `t` agree when the length-`t+1` initial segments agree. -/
theorem get?_eq_of_take_eq {xs ys : List ℚ} {t : Nat}
    (h : xs.take (t + 1) = ys.take (t + 1)) {j : Nat} (hj : j ≤ t) :
    xs.get? j = ys.get? j := by
  have hc := congrArg (fun l => l[j]?) h
  simp only [List.getElem?_take_of_lt (Nat.lt_succ_of_le hj)] at hc
  simpa [List.get?_eq_getElem?] using hc

/-- the trailing window ending at `t` only reads the first `t + 1` entries. -/
theorem windowAt_eq_of_take_eq {xs ys : List ℚ} {t w : Nat} (hw : w ≤ t + 1)
    (h : xs.take (t + 1) = ys.take (t + 1)) :
    windowAt w t xs = windowAt w t ys := by
  unfold windowAt
  rw [List.take_drop, List.take_drop]
  have he : t + 1 - w + w = t + 1 := by omega
  rw [he, h]

/-- the constructed target series is the raw series with its first value
removed: `shift(-1)` followed by `dropna`. -/
theorem targetSeries_eq_drop (xs : List ℚ) : targetSeries xs = xs.drop 1 := by
  unfold targetSeries dropna pandasShiftNeg1
  by_cases h : xs.isEmpty
  · rw [List.isEmpty_iff] at h
    simp [h]
  · have hif : (if xs.isEmpty then ([] : List (Option ℚ)) else [none]) = [none] := by
      simp [h]
    rw [hif, List.filterMap_append, List.filterMap_map]
    simp

/-- the sklearn train size at `test_size = 0.2` is `floor(0.8 * n)`. -/
theorem nTrain_eq_floor (n : Nat) : nTrain n = 4 * n / 5 := by
  unfold nTrain nTest
  omega

/-! Claim theorems. -/

/-- C2.  Target construction and alignment: the constructed target at row
`t` is the raw `wp1` value at row `t + 1`; after the target shift and the
one-row tail truncation, feature matrix and target vector have equal
length with row-for-row correspondence, and the last row of the original
frame is absent from the truncated feature matrix. -/
theorem target_alignment (xs : List ℚ) (X : List (List ℚ))
    (hne : xs ≠ []) (hlen : X.length = xs.length) :
    (truncateLast X).length = (targetSeries xs).length ∧
    (∀ t, t + 1 < xs.length → (targetSeries xs).get? t = xs.get? (t + 1)) ∧
    truncateLast X = X.take (X.length - 1) ∧
    (∀ t, t + 1 < X.length → (truncateLast X).get? t = X.get? t) := by
  refine ⟨?_, ?_, ?_, ?_⟩
  · rw [targetSeries_eq_drop]
    simp [truncateLast, hlen]
  · intro t ht
    rw [targetSeries_eq_drop]
    simp [List.get?_eq_getElem?, List.getElem?_drop, Nat.add_comm 1 t]
  · exact List.dropLast_eq_take X
  · intro t ht
    rw [truncateLast, List.dropLast_eq_take]
    simp [List.get?_eq_getElem?]
    rw [List.getElem?_take_of_lt (by omega)]

/-- C2 witness: the alignment theorem at a concrete three-row frame. -/
theorem target_alignment_witness :
    (([1, 2, 3] : List ℚ) ≠ [] ∧ ([[10], [20], [30]] : List (List ℚ)).length = ([1, 2, 3] : List ℚ).length) ∧
    ((truncateLast ([[10], [20], [30]] : List (List ℚ))).length = (targetSeries [1, 2, 3]).length ∧
      (∀ t, t + 1 < ([1, 2, 3] : List ℚ).length →
        (targetSeries [1, 2, 3]).get? t = ([1, 2, 3] : List ℚ).get? (t + 1)) ∧
      truncateLast ([[10], [20], [30]] : List (List ℚ)) =
        ([[10], [20], [30]] : List (List ℚ)).take (([[10], [20], [30]] : List (List ℚ)).length - 1) ∧
      (∀ t, t + 1 < ([[10], [20], [30]] : List (List ℚ)).length →
        (truncateLast ([[10], [20], [30]] : List (List ℚ))).get? t =
          ([[10], [20], [30]] : List (List ℚ)).get? t)) :=
  ⟨⟨by decide, by decide⟩,
    target_alignment [1, 2, 3] [[10], [20], [30]] (by decide) (by decide)⟩

/-- C4.  Chronological train/test split: the split is one contiguous cut,
the training partition is the first `floor(0.8 * N)` rows and the test
partition the remainder, order is preserved, and with strictly increasing
timestamps every test timestamp exceeds every train timestamp. -/
theorem chrono_split {α : Type} (X : List α) (y dates : List ℚ)
    (hy : y.length = X.length) (hd : dates.length = X.length)
    (hsort : dates.Pairwise (· < ·)) :
    nTrain X.length = 4 * X.length / 5 ∧
    ttsTrain X = X.take (4 * X.length / 5) ∧
    ttsTest X = X.drop (4 * X.length / 5) ∧
    ttsTrain X ++ ttsTest X = X ∧
    ttsTrain y = y.take (4 * X.length / 5) ∧
    ttsTrain y ++ ttsTest y = y ∧
    ∀ a ∈ ttsTrain dates, ∀ b ∈ ttsTest dates, a < b := by
  refine ⟨nTrain_eq_floor X.length, ?_, ?_, ?_, ?_, ?_, ?_⟩
  · rw [ttsTrain, nTrain_eq_floor]
  · rw [ttsTest, nTrain_eq_floor]
  · exact List.take_append_drop _ X
  · rw [ttsTrain, nTrain_eq_floor, hy]
  · exact List.take_append_drop _ y
  · intro a ha b hb
    have hsp := hsort
    rw [← List.take_append_drop (nTrain dates.length) dates] at hsp
    exact (List.pairwise_append.mp hsp).2.2 a ha b hb

/-- C4 witness: the split theorem at a concrete seven-row data set. -/
theorem chrono_split_witness :
    (([1, 2, 3, 4, 5, 6, 7] : List ℚ).length = ([10, 20, 30, 40, 50, 60, 70] : List ℚ).length ∧
      ([1, 2, 3, 4, 5, 6, 7] : List ℚ).Pairwise (· < ·)) ∧
    (nTrain ([10, 20, 30, 40, 50, 60, 70] : List ℚ).length =
        4 * ([10, 20, 30, 40, 50, 60, 70] : List ℚ).length / 5 ∧
      ttsTrain ([10, 20, 30, 40, 50, 60, 70] : List ℚ) =
        ([10, 20, 30, 40, 50, 60, 70] : List ℚ).take
          (4 * ([10, 20, 30, 40, 50, 60, 70] : List ℚ).length / 5) ∧
      ttsTest ([10, 20, 30, 40, 50, 60, 70] : List ℚ) =
        ([10, 20, 30, 40, 50, 60, 70] : List ℚ).drop
          (4 * ([10, 20, 30, 40, 50, 60, 70] : List ℚ).length / 5) ∧
      ttsTrain ([10, 20, 30, 40, 50, 60, 70] : List ℚ) ++
          ttsTest ([10, 20, 30, 40, 50, 60, 70] : List ℚ) =
        ([10, 20, 30, 40, 50, 60, 70] : List ℚ) ∧
      ttsTrain ([1, 2, 3, 4, 5, 6, 7] : List ℚ) =
        ([1, 2, 3, 4, 5, 6, 7] : List ℚ).take
          (4 * ([10, 20, 30, 40, 50, 60, 70] : List ℚ).length / 5) ∧
      ttsTrain ([1, 2, 3, 4, 5, 6, 7] : List ℚ) ++
          ttsTest ([1, 2, 3, 4, 5, 6, 7] : List ℚ) =
        ([1, 2, 3, 4, 5, 6, 7] : List ℚ) ∧
      ∀ a ∈ ttsTrain ([1, 2, 3, 4, 5, 6, 7] : List ℚ),
        ∀ b ∈ ttsTest ([1, 2, 3, 4, 5, 6, 7] : List ℚ), a < b) :=
  ⟨⟨by decide, by decide⟩,
    chrono_split [10, 20, 30, 40, 50, 60, 70] [1, 2, 3, 4, 5, 6, 7]
      [1, 2, 3, 4, 5, 6, 7] (by decide) (by decide) (by decide)⟩

/-- C8.  Scaler round trip: for the min-max scaler fitted on a column,
`inverse_transform (transform x) = x` for every `x` in the fitted range
(exactly, in the rational model of the arithmetic). -/
theorem scaler_roundtrip (xs : List ℚ) (x : ℚ) (hne : xs ≠ [])
    (hlo : dataMin xs ≤ x) (hhi : x ≤ dataMax xs) :
    mmInverse xs (mmTransform xs x) = x := by
  have hz : handleZeros (dataMax xs - dataMin xs) ≠ 0 := by
    unfold handleZeros
    split
    · exact one_ne_zero
    · assumption
  have hs : mmScale xs ≠ 0 := by
    unfold mmScale
    exact one_div_ne_zero hz
  unfold mmInverse mmTransform
  have hc : x * mmScale xs + mmMinAdj xs - mmMinAdj xs = x * mmScale xs := by
    ring
  rw [hc, mul_div_assoc, div_self hs, mul_one]

/-- C8 witness: the round-trip theorem at the column `[1, 3]` and `x = 2`. -/
theorem scaler_roundtrip_witness :
    (([1, 3] : List ℚ) ≠ [] ∧ dataMin [1, 3] ≤ (2 : ℚ) ∧ (2 : ℚ) ≤ dataMax [1, 3]) ∧
    mmInverse [1, 3] (mmTransform [1, 3] 2) = (2 : ℚ) :=
  ⟨⟨by decide, by norm_num [dataMin, dataMax], by norm_num [dataMin, dataMax]⟩,
    scaler_roundtrip [1, 3] 2 (by decide) (by norm_num [dataMin, dataMax])
      (by norm_num [dataMin, dataMax])⟩

/-- a lag cell at row `t` agrees between two series whose first `t + 1`
entries agree. -/
theorem shift_cell_eq {xs ys : List ℚ} {t : Nat} (k : Nat)
    (ht : t < xs.length) (ht2 : t < ys.length)
    (h : xs.take (t + 1) = ys.take (t + 1)) :
    (pandasShift k xs).getD t none = (pandasShift k ys).getD t none := by
  rw [pandasShift_getD k xs ht, pandasShift_getD k ys ht2]
  by_cases hk : t < k
  · simp [hk]
  · simp only [if_neg hk]
    exact get?_eq_of_take_eq h (by omega)

/-- a rolling-mean cell at row `t` agrees between two series whose first
`t + 1` entries agree. -/
theorem rollMean_cell_eq {xs ys : List ℚ} {t : Nat} (w : Nat)
    (ht : t < xs.length) (ht2 : t < ys.length)
    (h : xs.take (t + 1) = ys.take (t + 1)) :
    (rollingMean w xs).getD t none = (rollingMean w ys).getD t none := by
  rw [rollingMean_getD w xs ht, rollingMean_getD w ys ht2]
  by_cases hw : t + 1 < w
  · simp [hw]
  · rw [windowAt_eq_of_take_eq (by omega) h]

/-- a rolling-variance cell at row `t` agrees between two series whose
first `t + 1` entries agree. -/
theorem rollVar_cell_eq {xs ys : List ℚ} {t : Nat} (w : Nat)
    (ht : t < xs.length) (ht2 : t < ys.length)
    (h : xs.take (t + 1) = ys.take (t + 1)) :
    (rollingVarS w xs).getD t none = (rollingVarS w ys).getD t none := by
  rw [rollingVarS_getD w xs ht, rollingVarS_getD w ys ht2]
  by_cases hw : t + 1 < w
  · simp [hw]
  · rw [windowAt_eq_of_take_eq (by omega) h]

/-- C1.  No look-ahead in feature construction: two input series that agree
on all rows up to and including `t` produce identical derived-feature
values at row `t`, however they differ later. -/
theorem features_no_lookahead (xs ys : List ℚ) (t : Nat) (ht : t < xs.length)
    (h : xs.take (t + 1) = ys.take (t + 1)) :
    derivedAt xs t = derivedAt ys t := by
  have ht2 : t < ys.length := by
    have hl := congrArg List.length h
    simp only [List.length_take] at hl
    omega
  unfold derivedAt
  rw [shift_cell_eq 1 ht ht2 h, shift_cell_eq 2 ht ht2 h, shift_cell_eq 3 ht ht2 h,
    rollMean_cell_eq 3 ht ht2 h, rollVar_cell_eq 3 ht ht2 h,
    rollMean_cell_eq 6 ht ht2 h, rollVar_cell_eq 6 ht ht2 h,
    rollMean_cell_eq 12 ht ht2 h, rollVar_cell_eq 12 ht ht2 h]

/-- C1 witness: two series agreeing on their first two rows, one extended
by a later row, have the same derived features at row 1. -/
theorem features_no_lookahead_witness :
    ((1 : Nat) < ([1, 2] : List ℚ).length ∧
      ([1, 2] : List ℚ).take 2 = ([1, 2, 99] : List ℚ).take 2) ∧
    derivedAt [1, 2] 1 = derivedAt [1, 2, 99] 1 :=
  ⟨⟨by decide, by decide⟩,
    features_no_lookahead [1, 2] [1, 2, 99] 1 (by decide) (by decide)⟩

/-- C3.  Lag and rolling-feature values: the lag-`k` feature at row `t` is
the raw value at row `t - k` (missing for `t < k`), and the rolling mean at
window `w` is the arithmetic mean of the raw values at rows
`t - w + 1, …, t` (missing for `t + 1 < w`). -/
theorem lag_rolling_values (xs : List ℚ) (t k w : Nat) (ht : t < xs.length) :
    (t < k → (pandasShift k xs).getD t none = none) ∧
    (k ≤ t → (pandasShift k xs).getD t none = some (xs.getD (t - k) 0)) ∧
    (t + 1 < w → (rollingMean w xs).getD t none = none) ∧
    (w ≤ t + 1 → (rollingMean w xs).getD t none =
      some (((List.range w).map fun j => xs.getD (t + 1 - w + j) 0).sum / w)) := by
  refine ⟨?_, ?_, ?_, ?_⟩
  · intro hk
    rw [pandasShift_getD k xs ht, if_pos hk]
  · intro hk
    rw [pandasShift_getD k xs ht, if_neg (by omega)]
    have hlt : t - k < xs.length := by omega
    simp [List.get?_eq_getElem?, List.getElem?_eq_getElem hlt]
  · intro hw
    rw [rollingMean_getD w xs ht, if_pos hw]
  · intro hw
    rw [rollingMean_getD w xs ht, if_neg (by omega), windowAt,
      drop_take_eq_map_range 0 xs w (t + 1 - w) (by omega)]

/-- C3 witness: the lag/rolling value theorem at the series
`[5, 7, 9, 11]`, row 3, lag 1, window 3. -/
theorem lag_rolling_values_witness :
    ((3 : Nat) < ([5, 7, 9, 11] : List ℚ).length) ∧
    ((3 < 1 → (pandasShift 1 [5, 7, 9, 11]).getD 3 none = none) ∧
      (1 ≤ 3 → (pandasShift 1 [5, 7, 9, 11]).getD 3 none =
        some (([5, 7, 9, 11] : List ℚ).getD (3 - 1) 0)) ∧
      (3 + 1 < 3 → (rollingMean 3 [5, 7, 9, 11]).getD 3 none = none) ∧
      (3 ≤ 3 + 1 → (rollingMean 3 [5, 7, 9, 11]).getD 3 none =
        some (((List.range 3).map
          fun j => ([5, 7, 9, 11] : List ℚ).getD (3 + 1 - 3 + j) 0).sum / 3))) :=
  ⟨by decide, lag_rolling_values [5, 7, 9, 11] 3 1 3 (by decide)⟩

/-- C9.  LSTM windowing: with `timesteps = 3` the loop yields exactly
`len - 3` samples (none when `len ≤ 3`); sample `j` holds the scaled
feature rows `j, j + 1, j + 2` and is paired with the scaled target at row
`j + 3`, so the predicted row is outside its own input window. -/
theorem lstm_windowing (Xs : List (List ℚ)) (ys : List ℚ)
    (hy : ys.length = Xs.length) :
    (lstmX Xs).length = Xs.length - 3 ∧
    (lstmY Xs ys).length = Xs.length - 3 ∧
    (Xs.length ≤ 3 → lstmX Xs = [] ∧ lstmY Xs ys = []) ∧
    ∀ j, j < Xs.length - 3 →
      (lstmX Xs).get? j =
        some [Xs.getD j [], Xs.getD (j + 1) [], Xs.getD (j + 2) []] ∧
      (lstmY Xs ys).get? j = ys.get? (j + 3) := by
  refine ⟨by simp [lstmX], by simp [lstmY], ?_, ?_⟩
  · intro h3
    have h0 : Xs.length - 3 = 0 := by omega
    exact ⟨by simp [lstmX, h0], by simp [lstmY, h0]⟩
  · intro j hj
    have hr : (List.range' 3 (Xs.length - 3))[j]? = some (3 + 1 * j) :=
      List.getElem?_range' 3 1 hj
    constructor
    · rw [lstmX, List.get?_eq_getElem?, List.getElem?_map, hr]
      have h1 : 3 + 1 * j - 3 = j := by omega
      simp only [Option.map_some', h1]
      rw [drop_take_eq_map_range ([] : List ℚ) Xs 3 j (by omega)]
      have hr3 : List.range 3 = [0, 1, 2] := rfl
      rw [hr3]
      simp
    · rw [lstmY, List.get?_eq_getElem?, List.getElem?_map, hr]
      have h1 : 3 + 1 * j = j + 3 := by omega
      simp only [Option.map_some', h1]
      have hlt : j + 3 < ys.length := by omega
      simp [List.get?_eq_getElem?, List.getElem?_eq_getElem hlt]

/-- C9 witness: the windowing theorem at a five-row scaled feature matrix
and target vector. -/
theorem lstm_windowing_witness :
    (([9, 8, 7, 6, 5] : List ℚ).length = ([[1], [2], [3], [4], [5]] : List (List ℚ)).length) ∧
    ((lstmX [[1], [2], [3], [4], [5]]).length = ([[1], [2], [3], [4], [5]] : List (List ℚ)).length - 3 ∧
      (lstmY [[1], [2], [3], [4], [5]] [9, 8, 7, 6, 5]).length =
        ([[1], [2], [3], [4], [5]] : List (List ℚ)).length - 3 ∧
      (([[1], [2], [3], [4], [5]] : List (List ℚ)).length ≤ 3 →
        lstmX [[1], [2], [3], [4], [5]] = [] ∧
        lstmY [[1], [2], [3], [4], [5]] [9, 8, 7, 6, 5] = []) ∧
      ∀ j, j < ([[1], [2], [3], [4], [5]] : List (List ℚ)).length - 3 →
        (lstmX [[1], [2], [3], [4], [5]]).get? j =
          some [([[1], [2], [3], [4], [5]] : List (List ℚ)).getD j [],
            ([[1], [2], [3], [4], [5]] : List (List ℚ)).getD (j + 1) [],
            ([[1], [2], [3], [4], [5]] : List (List ℚ)).getD (j + 2) []] ∧
        (lstmY [[1], [2], [3], [4], [5]] [9, 8, 7, 6, 5]).get? j =
          ([9, 8, 7, 6, 5] : List ℚ).get? (j + 3)) :=
  ⟨by decide, lstm_windowing [[1], [2], [3], [4], [5]] [9, 8, 7, 6, 5] (by decide)⟩

/-- a lag cell is present exactly from row `k` on. -/
theorem shift_cell_isSome {xs : List ℚ} (k : Nat) {t : Nat}
    (ht : t < xs.length) :
    (((pandasShift k xs).getD t none).isSome = true) ↔ k ≤ t := by
  rw [pandasShift_getD k xs ht]
  by_cases hk : t < k
  · simp [hk]
  · have hlt : t - k < xs.length := by omega
    simp [hk, List.get?_eq_getElem?, List.getElem?_eq_getElem hlt]
    omega

/-- a rolling-mean cell is present exactly from row `w - 1` on. -/
theorem rollMean_cell_isSome {xs : List ℚ} (w : Nat) {t : Nat}
    (ht : t < xs.length) :
    (((rollingMean w xs).getD t none).isSome = true) ↔ w ≤ t + 1 := by
  rw [rollingMean_getD w xs ht]
  by_cases hw : t + 1 < w
  · simp [hw]
  · simp [hw]
    omega

/-- a rolling-variance cell is present exactly from row `w - 1` on. -/
theorem rollVar_cell_isSome {xs : List ℚ} (w : Nat) {t : Nat}
    (ht : t < xs.length) :
    (((rollingVarS w xs).getD t none).isSome = true) ↔ w ≤ t + 1 := by
  rw [rollingVarS_getD w xs ht]
  by_cases hw : t + 1 < w
  · simp [hw]
  · simp [hw]
    omega

/-- all nine derived cells are present exactly from row 11 on. -/
theorem derivedAt_all_isSome (xs : List ℚ) {t : Nat} (ht : t < xs.length) :
    ((derivedAt xs t).all Option.isSome = true) ↔ 11 ≤ t := by
  simp only [derivedAt, List.all_cons, List.all_nil, Bool.and_true,
    Bool.and_eq_true]
  rw [shift_cell_isSome 1 ht, shift_cell_isSome 2 ht, shift_cell_isSome 3 ht,
    rollMean_cell_isSome 3 ht, rollVar_cell_isSome 3 ht,
    rollMean_cell_isSome 6 ht, rollVar_cell_isSome 6 ht,
    rollMean_cell_isSome 12 ht, rollVar_cell_isSome 12 ht]
  omega

/-- the three lag cells are present exactly from row 3 on. -/
theorem lagCells_all_isSome (xs : List ℚ) {t : Nat} (ht : t < xs.length) :
    (([(pandasShift 1 xs).getD t none,
       (pandasShift 2 xs).getD t none,
       (pandasShift 3 xs).getD t none]).all Option.isSome = true) ↔ 3 ≤ t := by
  simp only [List.all_cons, List.all_nil, Bool.and_true, Bool.and_eq_true]
  rw [shift_cell_isSome 1 ht, shift_cell_isSome 2 ht, shift_cell_isSome 3 ht]
  omega

/-- counting the rows at index at least `c` among the first `n`. -/
theorem length_filter_range_le (n c : Nat) :
    ((List.range n).filter fun t => decide (c ≤ t)).length = n - c := by
  induction n with
  | zero => simp
  | succ m ih =>
    rw [List.range_succ, List.filter_append, List.length_append, ih]
    by_cases h : c ≤ m
    · simp [h]
      omega
    · simp [h]
      omega

/-- C10.  Extent of the global missing-value drop: on a dense series the
`dropna` over all feature columns keeps exactly the rows from index 11 on,
so `N - 11` rows survive — strictly fewer than the `N - 3` rows that the
lag features alone would leave. -/
theorem dropna_extent (xs : List ℚ) (h12 : 12 ≤ xs.length) :
    completeRows xs = (List.range xs.length).filter (fun t => decide (11 ≤ t)) ∧
    (completeRows xs).length = xs.length - 11 ∧
    (lagCompleteRows xs).length = xs.length - 3 ∧
    xs.length - 11 < xs.length - 3 := by
  have hc : completeRows xs =
      (List.range xs.length).filter (fun t => decide (11 ≤ t)) := by
    unfold completeRows
    apply List.filter_congr
    intro t htm
    have ht : t < xs.length := List.mem_range.mp htm
    rcases Bool.dichotomy ((derivedAt xs t).all Option.isSome) with hb | hb <;>
      rw [hb]
    · have : ¬ 11 ≤ t := fun hle => by
        rw [(derivedAt_all_isSome xs ht).mpr hle] at hb
        cases hb
      simp [this]
    · have := (derivedAt_all_isSome xs ht).mp hb
      simp [this]
  have hl : lagCompleteRows xs =
      (List.range xs.length).filter (fun t => decide (3 ≤ t)) := by
    unfold lagCompleteRows
    apply List.filter_congr
    intro t htm
    have ht : t < xs.length := List.mem_range.mp htm
    rcases Bool.dichotomy (([(pandasShift 1 xs).getD t none,
        (pandasShift 2 xs).getD t none,
        (pandasShift 3 xs).getD t none]).all Option.isSome) with hb | hb <;>
      rw [hb]
    · have : ¬ 3 ≤ t := fun hle => by
        rw [(lagCells_all_isSome xs ht).mpr hle] at hb
        cases hb
      simp [this]
    · have := (lagCells_all_isSome xs ht).mp hb
      simp [this]
  refine ⟨hc, ?_, ?_, by omega⟩
  · rw [hc, length_filter_range_le]
  · rw [hl, length_filter_range_le]

/-- C10 witness: the drop-extent theorem at a dense twelve-row series. -/
theorem dropna_extent_witness :
    ((12 : Nat) ≤ ([0, 1, 2, 3, 4, 5, 6, 7, 8, 9, 10, 11] : List ℚ).length) ∧
    (completeRows [0, 1, 2, 3, 4, 5, 6, 7, 8, 9, 10, 11] =
        (List.range ([0, 1, 2, 3, 4, 5, 6, 7, 8, 9, 10, 11] : List ℚ).length).filter
          (fun t => decide (11 ≤ t)) ∧
      (completeRows [0, 1, 2, 3, 4, 5, 6, 7, 8, 9, 10, 11]).length =
        ([0, 1, 2, 3, 4, 5, 6, 7, 8, 9, 10, 11] : List ℚ).length - 11 ∧
      (lagCompleteRows [0, 1, 2, 3, 4, 5, 6, 7, 8, 9, 10, 11]).length =
        ([0, 1, 2, 3, 4, 5, 6, 7, 8, 9, 10, 11] : List ℚ).length - 3 ∧
      ([0, 1, 2, 3, 4, 5, 6, 7, 8, 9, 10, 11] : List ℚ).length - 11 <
        ([0, 1, 2, 3, 4, 5, 6, 7, 8, 9, 10, 11] : List ℚ).length - 3) :=
  ⟨by decide, dropna_extent [0, 1, 2, 3, 4, 5, 6, 7, 8, 9, 10, 11] (by decide)⟩

/-- C5.  With no auxiliary forecast files the source sets
`wf_merged = pd.DataFrame()` (the `else` branch) and then calls
`pd.merge(train, wf_merged, on=['date'], how='left')`; the empty frame has
no `date` column, so the key validation fails and the merge raises instead
of passing the primary table through unchanged as the spec claims. -/
theorem empty_wf_merge_raises (train : Frame) :
    mergeStep train emptyFrame = Except.error () ∧
    mergeStep train emptyFrame ≠ Except.ok train := by
  have h : mergeStep train emptyFrame = Except.error () := by
    unfold mergeStep pdMerge emptyFrame
    simp
  exact ⟨h, by rw [h]; exact fun hc => Except.noConfusion hc⟩

/-- C6 amended.  The calendar step raises exactly when some key fails the
per-element `pd.to_datetime` parse under `%Y%m%d%H` (four year digits,
then flexible one-or-two-digit month, day and hour fields consuming the
whole string, forming a valid calendar date-hour inside the nanosecond
`Timestamp` range); it never silently defaults a failing row — but not
every non-fixed-width key raises, since short keys can parse with
narrower fields. -/
theorem calendar_raise_iff_parse_failure (dates : List Nat) :
    calendarStep dates = Except.error () ↔
      ∃ d ∈ dates, strptimeYmdH (natDigitsBE d) = none := by
  induction dates with
  | nil => simp [calendarStep]
  | cons a rest ih =>
    cases hps : strptimeYmdH (natDigitsBE a) with
    | none =>
      constructor
      · intro _
        exact ⟨a, List.mem_cons_self a rest, hps⟩
      · intro _
        unfold calendarStep
        rw [hps]
    | some r =>
      constructor
      · intro he
        unfold calendarStep at he
        rw [hps] at he
        cases hcr : calendarStep rest with
        | error e =>
          cases e
          rcases ih.mp hcr with ⟨d, hd, hpd⟩
          exact ⟨d, List.mem_cons_of_mem a hd, hpd⟩
        | ok rs =>
          rw [hcr] at he
          cases he
      · rintro ⟨d, hd, hpd⟩
        rcases List.mem_cons.mp hd with rfl | hd'
        · rw [hps] at hpd
          cases hpd
        · have herr : calendarStep rest = Except.error () :=
            ih.mpr ⟨d, hd', hpd⟩
          unfold calendarStep
          rw [hps, herr]

/-- C6 counterexample.  The nine-digit key 200911111 does not encode a
fixed-width `YYYYMMDDHH` date-hour integer, yet the calendar step parses
it (as 2009-11-11 hour 1) instead of raising: the strptime month, day and
hour fields also match single digits. -/
theorem calendar_nonfixed_key_parses :
    calendarStep [200911111] = Except.ok [(2009, 11, 11, 1)] ∧
    isFixedWidthKey 200911111 = false ∧
    (natDigitsBE 200911111).length = 9 :=
  ⟨rfl, rfl, rfl⟩

/-- every digit produced by `digitsAux` is below 10, given sufficient fuel. -/
theorem digitsAux_lt_ten : ∀ (fuel n : Nat), n < fuel →
    ∀ d ∈ digitsAux fuel n, d < 10 := by
  intro fuel
  induction fuel with
  | zero => intro n hn; omega
  | succ f ih =>
    intro n hn d hd
    simp only [digitsAux] at hd
    split at hd
    · simp at hd
      omega
    · rcases List.mem_append.mp hd with h1 | h2
      · exact ih (n / 10) (by omega) d h1
      · simp at h2
        omega

/-- `digitsAux` yields at least one digit with positive fuel. -/
theorem digitsAux_ne_nil (f n : Nat) : digitsAux (f + 1) n ≠ [] := by
  simp only [digitsAux]
  split
  · simp
  · simp

/-- the numeric value of the digit expansion recovers the input. -/
theorem valBE_digitsAux : ∀ (fuel n : Nat), n < fuel →
    valBE (digitsAux fuel n) = n := by
  intro fuel
  induction fuel with
  | zero => intro n hn; omega
  | succ f ih =>
    intro n hn
    simp only [digitsAux]
    split
    · simp [valBE]
    · rw [valBE, List.foldl_append]
      simp only [List.foldl_cons, List.foldl_nil]
      have hrec := ih (n / 10) (by omega)
      rw [valBE] at hrec
      rw [hrec]
      omega

/-- the decimal digit expansion is injective. -/
theorem natDigitsBE_inj {m n : Nat} (h : natDigitsBE m = natDigitsBE n) :
    m = n := by
  have hm := valBE_digitsAux (m + 1) m (by omega)
  have hn := valBE_digitsAux (n + 1) n (by omega)
  have hv : valBE (natDigitsBE m) = valBE (natDigitsBE n) := by rw [h]
  rwa [natDigitsBE, natDigitsBE, hm, hn] at hv

/-- all decimal digits of a number are below 10. -/
theorem natDigitsBE_lt_ten (n : Nat) : ∀ d ∈ natDigitsBE n, d < 10 :=
  digitsAux_lt_ten (n + 1) n (by omega)

/-- digit characters of values below 10 satisfy `Char.isDigit`. -/
theorem digitChar_isDigit : ∀ d, d < 10 → (Nat.digitChar d).isDigit = true := by
  decide

/-- digit characters are injective below 10. -/
theorem digitChar_inj : ∀ a, a < 10 → ∀ b, b < 10 →
    Nat.digitChar a = Nat.digitChar b → a = b := by
  decide

/-- mapping `digitChar` over lists of digits below 10 is injective. -/
theorem map_digitChar_inj : ∀ (as bs : List Nat),
    (∀ a ∈ as, a < 10) → (∀ b ∈ bs, b < 10) →
    as.map Nat.digitChar = bs.map Nat.digitChar → as = bs := by
  intro as
  induction as with
  | nil =>
    intro bs _ _ h
    cases bs with
    | nil => rfl
    | cons b bs => simp at h
  | cons a as ih =>
    intro bs ha hb h
    cases bs with
    | nil => simp at h
    | cons b bs =>
      simp only [List.map_cons, List.cons.injEq] at h
      have h1 : a = b :=
        digitChar_inj a (ha a (by simp)) b (hb b (by simp)) h.1
      have h2 := ih bs (fun x hx => ha x (by simp [hx]))
        (fun x hx => hb x (by simp [hx])) h.2
      rw [h1, h2]

/-- every character of the decimal string of a number is a digit. -/
theorem natChars_isDigit (n : Nat) : ∀ ch ∈ natChars n, ch.isDigit = true := by
  intro ch hch
  rcases List.mem_map.mp hch with ⟨d, hd, rfl⟩
  exact digitChar_isDigit d (natDigitsBE_lt_ten n d hd)

/-- the decimal string of a number determines the number. -/
theorem natChars_inj {m n : Nat} (h : natChars m = natChars n) : m = n :=
  natDigitsBE_inj (map_digitChar_inj _ _ (natDigitsBE_lt_ten m)
    (natDigitsBE_lt_ten n) h)

/-- `takeWhile` over a block of satisfying elements followed by a failing
element returns exactly the block. -/
theorem takeWhile_all_append (p : Char → Bool) :
    ∀ (xs : List Char) (y : Char) (ys : List Char),
      (∀ x ∈ xs, p x = true) → p y = false →
      (xs ++ y :: ys).takeWhile p = xs := by
  intro xs
  induction xs with
  | nil =>
    intro y ys _ hy
    simp [List.takeWhile_cons, hy]
  | cons a as ih =>
    intro y ys hall hy
    have ha : p a = true := hall a (by simp)
    simp [List.takeWhile_cons, ha,
      ih y ys (fun x hx => hall x (by simp [hx])) hy]

/-- the farm-suffixed rename is injective in the pair (farm index, source
column): each renamed name is traceable to exactly one farm and quantity.
The farm index is recovered as the digit run after the last `_wf`, which
cannot reach into the source column name because `f` is not a digit. -/
theorem wfName_inj {i j : Nat} {c cc : List Char}
    (h : wfName i c = wfName j cc) : i = j ∧ c = cc := by
  have hrev := congrArg List.reverse h
  rw [wfName, wfName] at hrev
  simp only [List.reverse_append, List.reverse_cons, List.reverse_nil,
    List.nil_append, List.cons_append, List.append_assoc] at hrev
  have htw := congrArg (List.takeWhile Char.isDigit) hrev
  rw [takeWhile_all_append _ _ _ _
      (fun x hx => natChars_isDigit i x (List.mem_reverse.mp hx)) (by decide),
    takeWhile_all_append _ _ _ _
      (fun x hx => natChars_isDigit j x (List.mem_reverse.mp hx)) (by decide)]
    at htw
  have hij : i = j := natChars_inj (List.reverse_injective htw)
  refine ⟨hij, ?_⟩
  rw [wfName, wfName, hij] at h
  exact List.append_cancel_right (List.append_cancel_right h)

/-- membership in the per-farm column block starting at farm index `i`. -/
theorem mem_allFarmColsAux : ∀ (files : List (List (List Char))) (i : Nat)
    (nm : List Char), nm ∈ allFarmColsAux i files →
    ∃ j c, j < files.length ∧ c ∈ nonKeyCols (files.getD j []) ∧
      nm = wfName (i + j) c := by
  intro files
  induction files with
  | nil =>
    intro i nm h
    simp [allFarmColsAux] at h
  | cons f fs ih =>
    intro i nm h
    rw [allFarmColsAux] at h
    rcases List.mem_append.mp h with h1 | h2
    · rw [renamedCols] at h1
      rcases List.mem_map.mp h1 with ⟨c, hc, rfl⟩
      exact ⟨0, c, by simp, by simpa using hc, by simp⟩
    · rcases ih (i + 1) nm h2 with ⟨j, c, hj, hc, hnm⟩
      refine ⟨j + 1, c, by simpa using hj, by simpa using hc, ?_⟩
      rw [hnm]
      congr 1
      omega

/-- the per-farm column block is duplicate-free whatever the start index. -/
theorem nodup_allFarmColsAux : ∀ (files : List (List (List Char))) (i : Nat),
    (∀ f ∈ files, f.Nodup) → (allFarmColsAux i files).Nodup := by
  intro files
  induction files with
  | nil =>
    intro i _
    simp [allFarmColsAux]
  | cons f fs ih =>
    intro i hnd
    rw [allFarmColsAux]
    apply List.Nodup.append
    · rw [renamedCols]
      exact List.Nodup.map_on (fun x _ y _ hxy => (wfName_inj hxy).2)
        ((hnd f (by simp)).filter _)
    · exact ih (i + 1) (fun g hg => hnd g (by simp [hg]))
    · intro nm hnm1 hnm2
      rw [renamedCols] at hnm1
      rcases List.mem_map.mp hnm1 with ⟨c, hc, rfl⟩
      rcases mem_allFarmColsAux fs (i + 1) _ hnm2 with ⟨j, cc, hj, hcc, hnm⟩
      have hij := (wfName_inj hnm).1
      omega

/-- C7.  Per-farm column renaming is collision-free and deterministic:
with duplicate-free per-file headers, the renamed per-farm-derived columns
of the merged frame are pairwise distinct, and every renamed name is
traceable to exactly one source farm index and source column. -/
theorem farm_cols_unique (files : List (List (List Char)))
    (hnd : ∀ f ∈ files, f.Nodup) :
    (allFarmCols files).Nodup ∧
    ∀ i j c cc, i < files.length → j < files.length →
      c ∈ nonKeyCols (files.getD i []) → cc ∈ nonKeyCols (files.getD j []) →
      wfName (i + 1) c = wfName (j + 1) cc → i = j ∧ c = cc := by
  constructor
  · exact nodup_allFarmColsAux files 1 hnd
  · intro i j c cc _ _ _ _ h
    have hp := wfName_inj h
    exact ⟨by omega, hp.2⟩

/-- C7 witness: two farm files sharing the header `u` stay collision-free
after renaming. -/
theorem farm_cols_unique_witness :
    (∀ f ∈ ([[['u'], ['v']], [['u']]] : List (List (List Char))), f.Nodup) ∧
    ((allFarmCols [[['u'], ['v']], [['u']]]).Nodup ∧
      ∀ i j c cc, i < ([[['u'], ['v']], [['u']]] : List (List (List Char))).length →
        j < ([[['u'], ['v']], [['u']]] : List (List (List Char))).length →
        c ∈ nonKeyCols (([[['u'], ['v']], [['u']]] : List (List (List Char))).getD i []) →
        cc ∈ nonKeyCols (([[['u'], ['v']], [['u']]] : List (List (List Char))).getD j []) →
        wfName (i + 1) c = wfName (j + 1) cc → i = j ∧ c = cc) :=
  ⟨by decide, farm_cols_unique [[['u'], ['v']], [['u']]] (by decide)⟩

end WindPower
